import Mathlib

/-
Verification of the mutation-calling and classification engine of MAGIC-seq
(src/ltr.py): the anchor locator, the mutation classifier, the read-collection
filter, the cross-sample harmonizer and the consensus builder, shallowly
embedded over lists of characters with Python string semantics (first-match
find returning -1 on failure, clamping slices, wrap-around negative indices),
and the theorems settling the specification's claims about them.
-/

namespace MagicSeq

/-- Watson-Crick complement of one base; characters outside A, C, G, T are
returned unchanged. -/
def complementBase : Char → Char
  | 'A' => 'T'
  | 'T' => 'A'
  | 'C' => 'G'
  | 'G' => 'C'
  | ch => ch

/-- Modelled from the spec: the function c.get_reverse_complement lives in the
chipseq module, which is not under src/; the spec describes locating the guide
on the opposite strand via its reverse complement, the standard reverse
complement of a DNA sequence (reverse the string and complement each base). -/
def get_reverse_complement (s : List Char) : List Char :=
  (s.map complementBase).reverse

/-- Boolean test that the first list is a leading segment of the second,
used to express one candidate position of a Python substring search. -/
def leadsWith : List Char → List Char → Bool
  | [], _ => true
  | _ :: _, [] => false
  | a :: pa, b :: pb => if a = b then leadsWith pa pb else false

/-- Index of the first occurrence of pat inside s, if any: the position
scanned left to right at which pat is a leading segment of the remainder.
The empty pattern occurs at position 0, as in CPython. -/
def findSub : List Char → List Char → Option Nat
  | [], pat => if leadsWith pat [] then some 0 else none
  | a :: t, pat => if leadsWith pat (a :: t) then some 0 else (findSub t pat).map (fun n => n + 1)

/-- Python str.find: index of the first occurrence, or -1 when absent. -/
def pyFind (s pat : List Char) : Int :=
  match findSub s pat with
  | some n => (n : Int)
  | none => -1

/-- Normalization of one Python slice endpoint against a sequence of length n:
negative endpoints count from the end and both directions clamp to [0, n]. -/
def pyIdx (n : Nat) (i : Int) : Nat :=
  if i < 0 then ((n : Int) + i).toNat else min i.toNat n

/-- Python slice s[a:b] with full CPython endpoint semantics. -/
def pySlice (s : List Char) (a b : Int) : List Char :=
  (s.take (pyIdx s.length b)).drop (pyIdx s.length a)

/-- Python single-element indexing s[i]: negative indices count from the end,
and an out-of-range index raises IndexError, modelled as none. -/
def pyGet (s : List Char) (i : Int) : Option Char :=
  let j : Int := if i < 0 then (s.length : Int) + i else i
  if 0 ≤ j ∧ j < (s.length : Int) then s.get? j.toNat else none

/-- Character list of a string literal. -/
def strL (s : String) : List Char :=
  s.data

/-- The placeholder "-" that ltr.py puts in the three unused fields of a
mutation-call string. -/
def dash : List Char :=
  ['-']

/-- The "mut_%s_%s_%s_%s" format of ltr.py line 511, applied to the four
fields intact, snv, insertion, deletion. -/
def mut_format (a s i d : List Char) : List Char :=
  strL "mut_" ++ a ++ strL "_" ++ s ++ strL "_" ++ i ++ strL "_" ++ d

/-- Python "%i" rendering of an integer. -/
def intStr (i : Int) : List Char :=
  if i < 0 then '-' :: Nat.toDigits 10 i.natAbs else Nat.toDigits 10 i.toNat

/-- Common tail of _lineage_ngs_define (src/ltr.py 446-450): once the cut
position proto_ind and the strand flag are fixed, both branches compute the
two flanking windows seq[proto_ind-40 : proto_ind-19] and
seq[proto_ind+20 : proto_ind+41], clamped to the sequence bounds, together
with the distances from each window start to the cut position. -/
def defineAt (seq : List Char) (proto_ind : Int) (rc : Bool) :
    List Char × List Char × Int × Int × Bool :=
  let n : Int := seq.length
  let lt1 := max 0 (proto_ind - 40)
  let lt2 := max 0 (proto_ind - 19)
  let rt1 := min n (proto_ind + 20)
  let rt2 := min n (proto_ind + 41)
  (pySlice seq lt1 lt2, pySlice seq rt1 rt2, proto_ind - lt1, rt1 - proto_ind, rc)

/-- Shallow embedding of _lineage_ngs_define (src/ltr.py 426-453), the anchor
locator: search the guide forward, then as reverse complement; the forward
match governs exactly when the forward guide is found and the reverse
complement is not (cut 16 bases into the match), otherwise the reverse
complement match governs (cut 3 bases in). Returns none in the
"sequence not found" branch. -/
def _lineage_ngs_define (seq proto : List Char) :
    Option (List Char × List Char × Int × Int × Bool) :=
  let proto_ind := pyFind seq proto
  let proto_ind_rc := pyFind seq (get_reverse_complement proto)
  if proto_ind ≠ -1 ∨ proto_ind_rc ≠ -1 then
    if proto_ind ≠ -1 ∧ proto_ind_rc = -1 then some (defineAt seq (proto_ind + 16) false)
    else some (defineAt seq (proto_ind_rc + 3) true)
  else none

/-- Inter-anchor crop of src/ltr.py lines 477-478 and 483: the slice of s from
the end of the first occurrence of the left anchor through the first character
of the first occurrence of the right anchor. -/
def cropOf (s lt_seq rt_seq : List Char) : List Char :=
  pySlice s (pyFind s lt_seq + (lt_seq.length : Int)) (pyFind s rt_seq + 1)

/-- Left-to-right mismatch scan of src/ltr.py lines 485-490 over the two
cropped sequences: walking both crops in step with ct the index of the
current position, it returns the first index at which the candidate crop
differs from the reference crop, defaulting to len(cropped_e) - 1 when the
candidate crop is exhausted without a mismatch; exhausting the reference
crop first is a Python IndexError, modelled as none. elen carries
len(cropped_e) for the default case. -/
def scanLA (elen : Int) : List Char → List Char → Int → Option Int
  | _, [], _ => some (elen - 1)
  | [], _ :: _, _ => none
  | a :: e2, b :: i2, ct => if b = a then scanLA elen e2 i2 (ct + 1) else some ct

/-- The left-to-right mismatch scan started at index 0, as in the loop of
src/ltr.py lines 484-490. -/
def scanL (e i : List Char) : Option Int :=
  scanLA (e.length : Int) e i 0

/-- Right-to-left mismatch scan of src/ltr.py lines 491-497, with the two
counters running down from the two crop lengths: the reference-side index of
the first mismatch, defaulting to 0 when either counter reaches zero first.
Both counters stay within range whenever called with the crop lengths, so the
list reads use a default character that is never consulted there. -/
def scanR (e i : List Char) : Nat → Nat → Int
  | ce + 1, ci + 1 =>
    if i.getD ci ' ' = e.getD ce ' ' then scanR e i ce ci else (ce : Int)
  | _, _ => 0

/-- Shallow embedding of _lineage_ngs_mutations (src/ltr.py 456-512), the
mutation classifier. The outer Option models Python exceptions (IndexError on
single-character indexing); the inner pair is the returned
(mut_string, cropped_i), with none for Python None. When either anchor is
absent from the candidate the function returns (None, None) without touching
the sequences further. -/
def _lineage_ngs_mutations (seq_e seq_i lt_seq rt_seq : List Char)
    (lt_len rt_len : Int) (rc : Bool) :
    Option (Option (List Char) × Option (List Char)) :=
  let lt_e := pyFind seq_e lt_seq
  let rt_e := pyFind seq_e rt_seq
  let len_e := rt_e - lt_e
  let lt_i := pyFind seq_i lt_seq
  let rt_i := pyFind seq_i rt_seq
  let len_i := rt_i - lt_i
  if lt_i ≠ -1 ∧ rt_i ≠ -1 then
    let cropped_i := cropOf seq_i lt_seq rt_seq
    if len_i > len_e then
      let ins0 := pySlice seq_i (lt_i + lt_len) (rt_i - rt_len)
      let ins := if rc then get_reverse_complement ins0 else ins0
      some (some (mut_format dash dash ins dash), some cropped_i)
    else if len_e > len_i then
      let cropped_e := cropOf seq_e lt_seq rt_seq
      match scanL cropped_e cropped_i with
      | none => none
      | some lt_del =>
        let rt_del0 := scanR cropped_e cropped_i cropped_e.length cropped_i.length
        let rt_del := if lt_del > rt_del0 then lt_del else rt_del0
        let cut_i := lt_len - (lt_seq.length : Int)
        let delet0 := pySlice cropped_e lt_del (rt_del + 1)
        let delet := if rc then get_reverse_complement delet0 else delet0
        let deletion := delet ++ strL "*" ++ intStr (cut_i - lt_del) ++ strL "*" ++
          intStr (rt_del + 1 - cut_i)
        some (some (mut_format dash dash dash deletion), some cropped_i)
    else
      match pyGet seq_i (lt_i + lt_len), pyGet seq_e (lt_e + lt_len) with
      | some bi, some be =>
        if bi = be then
          let ia := if rc then get_reverse_complement [bi] else [bi]
          some (some (mut_format ia dash dash dash), some cropped_i)
        else
          let sv := if rc then get_reverse_complement [bi] else [bi]
          some (some (mut_format dash sv dash dash), some cropped_i)
      | _, _ => none
  else
    some (none, none)

/-- Embedding of the read-collection loops of lineage_ngs_dict2csv
(src/ltr.py 412-421): each read is classified against the reference and a
(mut_string, cropped) pair is retained only when the cropped region is truthy
in Python, that is, neither None nor the empty string; everything else is
skipped silently. The retained pairs feed both the fasta output and the
per-site histogram. A none result models a Python exception escaping the
loop. -/
def lineage_collect (seq_c lt_seq rt_seq : List Char) (lt_len rt_len : Int) (rc : Bool) :
    List (List Char) → Option (List (List Char × List Char))
  | [] => some []
  | r :: rest =>
    match _lineage_ngs_mutations seq_c r lt_seq rt_seq lt_len rt_len rc with
    | none => none
    | some (mj, cj) =>
      match lineage_collect seq_c lt_seq rt_seq lt_len rt_len rc rest with
      | none => none
      | some acc =>
        match cj with
        | none => some acc
        | some cl =>
          if cl = [] then some acc
          else
            match mj with
            | none => some acc
            | some m => some ((m, cl) :: acc)

/-- Mutation-call strings actually present in one sample's site column:
the first components of its rows, with the blank padding rows (empty first
component) removed, as in the comprehensions of src/ltr.py 639-643. -/
def present (rows : List (List Char × Int)) : List (List Char) :=
  (rows.filter (fun x => x.1 ≠ [])).map Prod.fst

/-- Union, across all samples, of the mutation-call strings of one target
site, mirroring the mut_types set built in src/ltr.py 637-641. -/
def mut_types (cols : List (List (List Char × Int))) : List (List Char) :=
  ((cols.map present).flatten).dedup

/-- Embedding of the per-site recreation step of lineage_ngs_np2sum
(src/ltr.py 642-644): a sample's own non-blank rows, followed by one
zero-count row for every union mutation type absent from that sample's
column. -/
def np2sum_site (cols : List (List (List Char × Int)))
    (own : List (List Char × Int)) : List (List Char × Int) :=
  (own.filter (fun x => x.1 ≠ [])) ++
    ((mut_types cols).filter (fun x => ¬ x ∈ own.map Prod.fst)).map (fun x => (x, 0))

/-- Total read count of one sample's site column, over its non-blank rows. -/
def sumCounts (rows : List (List Char × Int)) : Int :=
  ((rows.filter (fun x => x.1 ≠ [])).map Prod.snd).sum

/-- Smallest most-frequent element of a list, the scipy.stats.mode semantics
used by consensus_sequence; none for the empty list, on which scipy raises. -/
def betterMode (l : List Nat) (a b : Nat) : Nat :=
  if l.count b > l.count a then b
  else if l.count a > l.count b then a
  else min a b

/-- Mode of a list of naturals, smallest value among ties; none when empty. -/
def modeSmallest : List Nat → Option Nat
  | [] => none
  | a :: t => some ((a :: t).dedup.foldl (betterMode (a :: t)) a)

/-- Number of sequences of the modal length lens carrying base b at
position i, the per-position counting loop of src/ltr.py 543-554. -/
def posCount (seqs : List (List Char)) (lens : Nat) (b : Char) (i : Nat) : Nat :=
  ((seqs.filter (fun s => s.length = lens)).filter (fun s => s.get? i = some b)).length

/-- np.argmax over the four per-base counts in the fixed order A, C, G, T:
the first base attaining the maximum wins, src/ltr.py 555-565. -/
def argmaxBase (a c g t : Nat) : Char :=
  if a ≥ c ∧ a ≥ g ∧ a ≥ t then 'A'
  else if c ≥ g ∧ c ≥ t then 'C'
  else if g ≥ t then 'G'
  else 'T'

/-- Shallow embedding of consensus_sequence (src/ltr.py 536-566): take the
modal length of the input reads (scipy mode, smallest among ties; raising -
none - on an empty input), then per position the most common base among the
reads of exactly that length, ties resolved in the order A, C, G, T. -/
def consensus_sequence (seqs : List (List Char)) : Option (List Char) :=
  (modeSmallest (seqs.map List.length)).map (fun lens =>
    (List.range lens).map (fun i =>
      argmaxBase (posCount seqs lens 'A' i) (posCount seqs lens 'C' i)
        (posCount seqs lens 'G' i) (posCount seqs lens 'T' i)))

/-- The 20-base guide of the end-to-end scenario. -/
def gC2 : List Char :=
  strL "CCAGGCTGGAGTGCAGTGCT"

/-- Twenty adenines. -/
def aaa20 : List Char :=
  strL "AAAAAAAAAAAAAAAAAAAA"

/-- Twenty guanines. -/
def ggg20 : List Char :=
  strL "GGGGGGGGGGGGGGGGGGGG"

/-- The end-to-end scenario reference: twenty adenines, the guide, twenty
guanines. -/
def refC2 : List Char :=
  aaa20 ++ gC2 ++ ggg20

/-- The left anchor that the locator actually returns on refC2: the first
seventeen bases (the 21-base window seq[-4:17] clamped at the left edge). -/
def ltC2 : List Char :=
  strL "AAAAAAAAAAAAAAAAA"

/-- The right anchor that the locator actually returns on refC2: the last
four bases (the 21-base window seq[56:77] clamped at the right edge). -/
def rtC2 : List Char :=
  strL "GGGG"

/-- The scenario reference with the 10th base of the guide (index 9, an A)
changed to T; same total length. -/
def candC2tenth : List Char :=
  aaa20 ++ strL "CCAGGCTGGTGTGCAGTGCT" ++ ggg20

/-- The scenario reference with the 17th base of the guide (index 16, the
base at the cut-site-relative offset, a T) changed to A; same length. -/
def candC2cut : List Char :=
  aaa20 ++ strL "CCAGGCTGGAGTGCAGAGCT" ++ ggg20

/-- The scenario reference with two of the adenines between the anchors
removed: a deletion of length M = 2 inside a homopolymer run. -/
def candC5 : List Char :=
  strL "AAAAAAAAAAAAAAAAAA" ++ gC2 ++ ggg20

/-- A reference containing the guide forward at position 0 and its reverse
complement at position 20. -/
def seqBoth : List Char :=
  gC2 ++ get_reverse_complement gC2

/-- One-site column of the first sample used as harmonizer witness: one
Intact row with count 3. -/
def own7 : List (List Char × Int) :=
  [(strL "mut_A_-_-_-", 3)]

/-- One-site column of the second sample used as harmonizer witness: one
Intact row with count 2 for a different base. -/
def col7b : List (List Char × Int) :=
  [(strL "mut_T_-_-_-", 2)]

/-- The two-sample collection used as harmonizer witness. -/
def cols7 : List (List (List Char × Int)) :=
  [own7, col7b]

/-! ### Substring-search lemmas -/

lemma leadsWith_length {p s : List Char} (h : leadsWith p s = true) : p.length ≤ s.length := by
  induction p generalizing s with
  | nil => simp
  | cons a pa ih =>
    cases s with
    | nil => simp [leadsWith] at h
    | cons b pb =>
      rw [leadsWith] at h
      split at h
      · simpa using ih h
      · simp at h

lemma leadsWith_take (s : List Char) (n : Nat) : leadsWith (s.take n) s = true := by
  induction s generalizing n with
  | nil => simp [leadsWith]
  | cons a t ih =>
    cases n with
    | zero => simp [leadsWith]
    | succ m =>
      rw [List.take_succ_cons, leadsWith]
      simp [ih]

lemma findSub_le_length {s p : List Char} {n : Nat} (h : findSub s p = some n) :
    n ≤ s.length := by
  induction s generalizing n with
  | nil =>
    rw [findSub] at h
    split at h
    · simp at h; omega
    · simp at h
  | cons a t ih =>
    rw [findSub] at h
    split at h
    · simp at h; omega
    · rw [Option.map_eq_some'] at h
      obtain ⟨m, hm, rfl⟩ := h
      have := ih hm
      simp; omega

lemma findSub_leads {s p : List Char} {n : Nat} (h : findSub s p = some n) :
    leadsWith p (s.drop n) = true := by
  induction s generalizing n with
  | nil =>
    rw [findSub] at h
    split at h
    · simp at h; subst h; simpa
    · simp at h
  | cons a t ih =>
    rw [findSub] at h
    split at h
    · rename_i hl
      simp at h; subst h; simpa
    · rw [Option.map_eq_some'] at h
      obtain ⟨m, hm, rfl⟩ := h
      simpa using ih hm

lemma findSub_min {s p : List Char} {n : Nat} (h : leadsWith p (s.drop n) = true) :
    ∃ j, findSub s p = some j ∧ j ≤ n := by
  induction s generalizing n with
  | nil =>
    refine ⟨0, ?_, Nat.zero_le n⟩
    rw [List.drop_nil] at h
    rw [findSub, if_pos h]
  | cons a t ih =>
    by_cases hl : leadsWith p (a :: t) = true
    · exact ⟨0, by rw [findSub, if_pos hl], Nat.zero_le n⟩
    · cases n with
      | zero => rw [List.drop_zero] at h; exact absurd h hl
      | succ m =>
        rw [List.drop_succ_cons] at h
        obtain ⟨j, hj, hjm⟩ := ih h
        refine ⟨j + 1, ?_, by omega⟩
        rw [findSub, if_neg hl, hj]
        rfl

lemma findSub_length {s p : List Char} {n : Nat} (h : findSub s p = some n) :
    n + p.length ≤ s.length := by
  have h1 := findSub_le_length h
  have h2 := leadsWith_length (findSub_leads h)
  rw [List.length_drop] at h2
  omega

lemma pyFind_of_findSub {s p : List Char} {n : Nat} (h : findSub s p = some n) :
    pyFind s p = (n : Int) := by
  rw [pyFind, h]

lemma pyFind_ne_neg_one {s p : List Char} (h : pyFind s p ≠ -1) :
    ∃ n, findSub s p = some n ∧ pyFind s p = (n : Int) := by
  cases hf : findSub s p with
  | none => exact absurd (by rw [pyFind, hf]) h
  | some n => exact ⟨n, rfl, by rw [pyFind, hf]⟩

lemma rcomp_length (s : List Char) : (get_reverse_complement s).length = s.length := by
  simp [get_reverse_complement]

lemma pyGet_some {s : List Char} {i : Int} (h0 : 0 ≤ i) (h1 : i < (s.length : Int)) :
    ∃ c, pyGet s i = some c := by
  rw [pyGet]
  have hni : ¬ i < 0 := by omega
  simp only [hni, if_false]
  rw [if_pos ⟨h0, h1⟩]
  have hlt : i.toNat < s.length := by omega
  exact ⟨s.get ⟨i.toNat, hlt⟩, List.get?_eq_get hlt⟩

/-! ### The classifier on a reference compared against itself -/

lemma pyIdx_of_nonneg_le {n : Nat} {i : Int} (h0 : 0 ≤ i) (h1 : i ≤ (n : Int)) :
    pyIdx n i = i.toNat := by
  rw [pyIdx, if_neg (by omega)]
  have : i.toNat ≤ n := by omega
  omega

lemma pySlice_leads {seq : List Char} {a b : Int} (h0 : 0 ≤ a) (hab : a ≤ b)
    (hb : b ≤ (seq.length : Int)) :
    leadsWith (pySlice seq a b) (seq.drop a.toNat) = true := by
  rw [pySlice, pyIdx_of_nonneg_le h0 (le_trans hab hb), pyIdx_of_nonneg_le (le_trans h0 hab) hb]
  rw [List.drop_take]
  exact leadsWith_take _ _

lemma mutations_self_intact (seq : List Char) (pind : Int) (rcv : Bool)
    (h0 : 0 ≤ pind) (h1 : pind < (seq.length : Int)) :
    ∃ b cr,
      _lineage_ngs_mutations seq seq
        (pySlice seq (max 0 (pind - 40)) (max 0 (pind - 19)))
        (pySlice seq (min ((seq.length : Nat) : Int) (pind + 20))
          (min ((seq.length : Nat) : Int) (pind + 41)))
        (pind - max 0 (pind - 40)) (min ((seq.length : Nat) : Int) (pind + 20) - pind) rcv =
        some (some (mut_format [b] dash dash dash), some cr) := by
  set L := pySlice seq (max 0 (pind - 40)) (max 0 (pind - 19)) with hL
  set R := pySlice seq (min ((seq.length : Nat) : Int) (pind + 20))
    (min ((seq.length : Nat) : Int) (pind + 41)) with hR
  have hLlead : leadsWith L (seq.drop (max 0 (pind - 40)).toNat) = true := by
    rw [hL]
    exact pySlice_leads (le_max_left _ _) (max_le_max le_rfl (by omega))
      (max_le (by positivity) (by omega))
  have hRlead : leadsWith R (seq.drop (min ((seq.length : Nat) : Int) (pind + 20)).toNat) = true := by
    rw [hR]
    exact pySlice_leads (le_min (by positivity) (by omega)) (min_le_min le_rfl (by omega))
      (min_le_left _ _)
  obtain ⟨j, hj, hjle⟩ := findSub_min hLlead
  obtain ⟨j2, hj2, -⟩ := findSub_min hRlead
  have hfL : pyFind seq L = (j : Int) := pyFind_of_findSub hj
  have hfR : pyFind seq R = (j2 : Int) := pyFind_of_findSub hj2
  have hjInt : (j : Int) ≤ max 0 (pind - 40) := by
    have := Int.toNat_of_nonneg (le_max_left (0 : Int) (pind - 40))
    omega
  have hget : 0 ≤ (j : Int) + (pind - max 0 (pind - 40)) ∧
      (j : Int) + (pind - max 0 (pind - 40)) < (seq.length : Int) := by
    constructor
    · have : max 0 (pind - 40) ≤ pind := max_le h0 (by omega)
      omega
    · have : max 0 (pind - 40) ≤ pind := max_le h0 (by omega)
      omega
  obtain ⟨c, hc⟩ := pyGet_some hget.1 hget.2
  refine ⟨if rcv then complementBase c else c, cropOf seq L R, ?_⟩
  simp only [_lineage_ngs_mutations]
  rw [hfL, hfR]
  rw [if_pos ⟨by omega, by omega⟩]
  rw [if_neg (lt_irrefl _), if_neg (lt_irrefl _)]
  rw [hc]
  cases rcv with
  | false => simp
  | true => simp [get_reverse_complement]

/-- C1: for every reference sequence and every anchor tuple that the anchor
locator derives from it with a 20-base guide (both anchors are substrings of
the reference by construction), classifying the reference against itself
yields an Intact call - a mutation string whose intact field holds a single
base and whose SNV, insertion and deletion fields are all "-". -/
theorem C1_self_comparison_intact (seq proto : List Char) (h20 : proto.length = 20)
    (lt rt : List Char) (ll rl : Int) (rcv : Bool)
    (hdef : _lineage_ngs_define seq proto = some (lt, rt, ll, rl, rcv)) :
    ∃ b cr, _lineage_ngs_mutations seq seq lt rt ll rl rcv =
      some (some (mut_format [b] dash dash dash), some cr) := by
  simp only [_lineage_ngs_define] at hdef
  split at hdef
  · split at hdef
    · rename_i hfwd
      obtain ⟨n0, hn0, hpf⟩ := pyFind_ne_neg_one hfwd.1
      rw [hpf] at hdef
      have hlen : n0 + 20 ≤ seq.length := by
        have := findSub_length hn0
        omega
      rw [Option.some_inj] at hdef
      simp only [defineAt, Prod.mk.injEq] at hdef
      obtain ⟨rfl, rfl, rfl, rfl, rfl⟩ := hdef
      exact mutations_self_intact seq ((n0 : Int) + 16) false (by omega) (by omega)
    · rename_i hcond hfwd
      have hrc : pyFind seq (get_reverse_complement proto) ≠ -1 := by tauto
      obtain ⟨m, hm, hpfrc⟩ := pyFind_ne_neg_one hrc
      rw [hpfrc] at hdef
      have hlen : m + 20 ≤ seq.length := by
        have h := findSub_length hm
        rw [rcomp_length, h20] at h
        omega
      rw [Option.some_inj] at hdef
      simp only [defineAt, Prod.mk.injEq] at hdef
      obtain ⟨rfl, rfl, rfl, rfl, rfl⟩ := hdef
      exact mutations_self_intact seq ((m : Int) + 3) true (by omega) (by omega)
  · exact absurd hdef (by simp)

/-- Witness for C1: the anchor tuple that the locator computes on the
end-to-end scenario reference, applied back to that reference. -/
theorem C1_witness :
    ∃ b cr, _lineage_ngs_mutations refC2 refC2 ltC2 rtC2 36 20 false =
      some (some (mut_format [b] dash dash dash), some cr) :=
  C1_self_comparison_intact refC2 gC2 (by decide) ltC2 rtC2 36 20 false (by decide)

/-- C2 counterexample: in the end-to-end scenario, the candidate of identical
length that differs from the reference only at the 10th base of the guide
(reference position 29, A changed to T) is classified Intact with base T -
not SNV - because the classifier inspects only the single base at the
cut-site-relative offset, reference position 36. -/
theorem C2_counterexample :
    (_lineage_ngs_mutations refC2 candC2tenth ltC2 rtC2 36 20 false).map Prod.fst =
      some (some (strL "mut_T_-_-_-")) := by
  decide

/-- C2 amended: with the anchor tuple the locator computes on the scenario
reference, a candidate identical to the reference is classified Intact with
base T, and a candidate differing only at the 17th base of the guide - the
base at the cut-site-relative offset, reference position 36, T changed to
A - is classified SNV carrying that base A. -/
theorem C2_amended_scenario :
    _lineage_ngs_define refC2 gC2 = some (ltC2, rtC2, 36, 20, false) ∧
    _lineage_ngs_mutations refC2 refC2 ltC2 rtC2 36 20 false =
      some (some (strL "mut_T_-_-_-"), some (strL "AAACCAGGCTGGAGTGCAGTGCTG")) ∧
    _lineage_ngs_mutations refC2 candC2cut ltC2 rtC2 36 20 false =
      some (some (strL "mut_-_A_-_-"), some (strL "AAACCAGGCTGGAGTGCAGAGCTG")) := by
  exact ⟨by decide, by decide, by decide⟩

/-- C3 counterexample: on the reference that carries the guide forward at
position 0 and its reverse complement at position 20, the locator resolves
against the reverse-complement match - orientation flag set, cut site 3
bases into that match (position 23) - and not the forward match, contrary to
the claim that the forward match always wins when the forward guide is
present. -/
theorem C3_counterexample :
    pyFind seqBoth gC2 = 0 ∧
    _lineage_ngs_define seqBoth gC2 = some (strL "CCAG", [], 23, 17, true) := by
  exact ⟨by decide, by decide⟩

/-- C3 amended: the reverse-complement match governs whenever the reverse
complement of the guide occurs in the reference, regardless of whether the
forward guide also occurs (cut 3 bases into the reverse-complement
occurrence, orientation flag set); the forward match governs only when the
forward guide occurs and the reverse complement does not (cut 16 bases in,
flag clear). -/
theorem C3_amended_strand_priority (seq proto : List Char) :
    (pyFind seq (get_reverse_complement proto) ≠ -1 →
      _lineage_ngs_define seq proto =
        some (defineAt seq (pyFind seq (get_reverse_complement proto) + 3) true)) ∧
    (pyFind seq proto ≠ -1 → pyFind seq (get_reverse_complement proto) = -1 →
      _lineage_ngs_define seq proto =
        some (defineAt seq (pyFind seq proto + 16) false)) := by
  constructor
  · intro h
    simp only [_lineage_ngs_define]
    rw [if_pos (Or.inr h), if_neg (by tauto)]
  · intro hf hr
    simp only [_lineage_ngs_define]
    rw [if_pos (Or.inl hf), if_pos ⟨hf, hr⟩]

/-- Witness for C3: the reverse-complement half applied to the two-strand
reference, the forward half applied to the scenario reference. -/
theorem C3_witness :
    _lineage_ngs_define seqBoth gC2 =
      some (defineAt seqBoth (pyFind seqBoth (get_reverse_complement gC2) + 3) true) ∧
    _lineage_ngs_define refC2 gC2 =
      some (defineAt refC2 (pyFind refC2 gC2 + 16) false) :=
  ⟨(C3_amended_strand_priority seqBoth gC2).1 (by decide),
    (C3_amended_strand_priority refC2 gC2).2 (by decide) (by decide)⟩

/-- C4 counterexample: on the reference assembled as twenty adenines, the
guide, twenty guanines, the locator does not return the two flanking
20-mers: the left anchor it returns has 17 bases and the right anchor 4
bases. -/
theorem C4_counterexample :
    (_lineage_ngs_define refC2 gC2).map (fun t => (t.1.length, t.2.1.length)) =
      some (17, 4) := by
  decide

/-- C4 amended: for every reference assembled from a 20-base left flank, a
20-base guide whose first forward occurrence is at position 20, and a
20-base right flank, with the reverse complement of the guide absent, the
locator returns forward orientation, offsets 36 and 20, cut site 36 inside
the guide span [20, 40), left anchor the first 17 bases of the left flank
(the nominal 21-base window seq[-4:17] clamped at the start) and right
anchor the last 4 bases of the right flank (the nominal window seq[56:77]
clamped at the end). -/
theorem C4_amended_roundtrip (ltF g rtF : List Char)
    (hl : ltF.length = 20) (hg : g.length = 20) (hr : rtF.length = 20)
    (hf : pyFind (ltF ++ g ++ rtF) g = 20)
    (hrc : pyFind (ltF ++ g ++ rtF) (get_reverse_complement g) = -1) :
    _lineage_ngs_define (ltF ++ g ++ rtF) g =
      some (ltF.take 17, rtF.drop 16, 36, 20, false) ∧
    (ltF.take 17).length = 17 ∧ (rtF.drop 16).length = 4 ∧
    (20 : Int) ≤ 36 ∧ (36 : Int) < 40 := by
  have hn : (ltF ++ g ++ rtF).length = 60 := by simp [hl, hg, hr]
  refine ⟨?_, by simp [hl], by simp [hr], by omega, by omega⟩
  simp only [_lineage_ngs_define]
  rw [hf, hrc]
  rw [if_pos (Or.inl (by omega)), if_pos ⟨by omega, rfl⟩]
  simp only [defineAt, hn]
  have e1 : (0 : Int) ⊔ (20 + 16 - 40) = 0 := by norm_num
  have e2 : (0 : Int) ⊔ (20 + 16 - 19) = 17 := by norm_num
  have e3 : ((60 : Nat) : Int) ⊓ (20 + 16 + 20) = 56 := by norm_num
  have e4 : ((60 : Nat) : Int) ⊓ (20 + 16 + 41) = 60 := by norm_num
  rw [e1, e2, e3, e4, Option.some_inj, Prod.mk.injEq, Prod.mk.injEq, Prod.mk.injEq,
    Prod.mk.injEq]
  refine ⟨?_, ?_, by norm_num, by norm_num, rfl⟩
  · rw [pySlice, hn]
    have p1 : pyIdx 60 17 = 17 := by decide
    have p0 : pyIdx 60 0 = 0 := by decide
    rw [p1, p0, List.drop_zero]
    rw [List.take_append_of_le_length (by simp [hl, hg]),
      List.take_append_of_le_length (by omega)]
  · rw [pySlice, hn]
    have p1 : pyIdx 60 60 = 60 := by decide
    have p0 : pyIdx 60 56 = 56 := by decide
    rw [p1, p0, ← hn, List.take_length]
    have h40 : (ltF ++ g).length = 40 := by simp [hl, hg]
    rw [show (56 : Nat) = (ltF ++ g).length + 16 by omega]
    exact List.drop_append 16

/-- Witness for C4 at the end-to-end scenario flanks and guide. -/
theorem C4_witness :
    _lineage_ngs_define (aaa20 ++ gC2 ++ ggg20) gC2 =
      some (aaa20.take 17, ggg20.drop 16, 36, 20, false) ∧
    (aaa20.take 17).length = 17 ∧ (ggg20.drop 16).length = 4 ∧
    (20 : Int) ≤ 36 ∧ (36 : Int) < 40 :=
  C4_amended_roundtrip aaa20 gC2 ggg20 (by decide) (by decide) (by decide)
    (by decide) (by decide)

/-- C6: whenever either anchor has no exact occurrence in the candidate read,
the classifier returns (None, None) - no mutation string and no cropped
region - without raising any error, and the read contributes nothing to the
collected calls that feed the per-site histogram and the fasta output. -/
theorem C6_missing_anchor_skipped (seq_e r lt rt : List Char) (ll rl : Int) (rcv : Bool)
    (rest : List (List Char))
    (h : pyFind r lt = -1 ∨ pyFind r rt = -1) :
    _lineage_ngs_mutations seq_e r lt rt ll rl rcv = some (none, none) ∧
    lineage_collect seq_e lt rt ll rl rcv (r :: rest) =
      lineage_collect seq_e lt rt ll rl rcv rest := by
  have hmut : _lineage_ngs_mutations seq_e r lt rt ll rl rcv = some (none, none) := by
    simp only [_lineage_ngs_mutations]
    rw [if_neg (by tauto)]
  refine ⟨hmut, ?_⟩
  rw [lineage_collect, hmut]
  cases lineage_collect seq_e lt rt ll rl rcv rest <;> rfl

/-- Witness for C6: a read consisting of only the left anchor, against a
reference carrying both anchors; the right anchor is absent from the read. -/
theorem C6_witness :
    _lineage_ngs_mutations (strL "TTTTAAAAGGGG") (strL "TTTT") (strL "TTTT") (strL "GGGG")
      6 0 false = some (none, none) ∧
    lineage_collect (strL "TTTTAAAAGGGG") (strL "TTTT") (strL "GGGG") 6 0 false
        [strL "TTTT"] =
      lineage_collect (strL "TTTTAAAAGGGG") (strL "TTTT") (strL "GGGG") 6 0 false [] :=
  C6_missing_anchor_skipped (strL "TTTTAAAAGGGG") (strL "TTTT") (strL "TTTT") (strL "GGGG")
    6 0 false [] (by decide)

/-- C8 counterexample: with reference and candidate TTTTAAAAGGGG and anchors
TTTT and GGGG, the classifier returns the cropped region AAAAG - which
includes the first base of the right anchor occurrence - and not AAAA, the
substring of the candidate strictly between the anchors. -/
theorem C8_counterexample :
    _lineage_ngs_mutations (strL "TTTTAAAAGGGG") (strL "TTTTAAAAGGGG")
      (strL "TTTT") (strL "GGGG") 6 0 false =
      some (some (strL "mut_A_-_-_-"), some (strL "AAAAG")) ∧
    strL "AAAAG" ≠ pySlice (strL "TTTTAAAAGGGG")
      (pyFind (strL "TTTTAAAAGGGG") (strL "TTTT") + ((strL "TTTT").length : Int))
      (pyFind (strL "TTTTAAAAGGGG") (strL "GGGG")) := by
  exact ⟨by decide, by decide⟩

/-- C8 amended: whenever both anchors are found in the candidate and the
classifier returns without raising, the cropped region it reports is the
slice of the candidate from the end of the left anchor occurrence up to and
including the first base of the right anchor occurrence - one base more
than the substring strictly between the anchors. -/
theorem C8_amended_crop (seq_e seq_i lt rt : List Char) (ll rl : Int) (rcv : Bool)
    (hlt : pyFind seq_i lt ≠ -1) (hrt : pyFind seq_i rt ≠ -1)
    (m c : Option (List Char))
    (h : _lineage_ngs_mutations seq_e seq_i lt rt ll rl rcv = some (m, c)) :
    c = some (cropOf seq_i lt rt) := by
  simp only [_lineage_ngs_mutations] at h
  rw [if_pos ⟨hlt, hrt⟩] at h
  split at h
  · rw [Option.some_inj, Prod.mk.injEq] at h
    exact h.2.symm
  · split at h
    · split at h
      · exact absurd h (by simp)
      · rw [Option.some_inj, Prod.mk.injEq] at h
        exact h.2.symm
    · split at h
      · split at h
        · rw [Option.some_inj, Prod.mk.injEq] at h
          exact h.2.symm
        · rw [Option.some_inj, Prod.mk.injEq] at h
          exact h.2.symm
      · exact absurd h (by simp)

/-- Witness for C8 on the reference TTTTAAAAGGGG compared against itself. -/
theorem C8_witness :
    (some (strL "AAAAG") : Option (List Char)) =
      some (cropOf (strL "TTTTAAAAGGGG") (strL "TTTT") (strL "GGGG")) :=
  C8_amended_crop (strL "TTTTAAAAGGGG") (strL "TTTTAAAAGGGG") (strL "TTTT") (strL "GGGG")
    6 0 false (by decide) (by decide) (some (strL "mut_A_-_-_-")) (some (strL "AAAAG"))
    (by decide)

/-- C9 counterexample: on an empty collection of sequences the consensus
builder does not return an empty consensus: scipy raises on the mode of the
empty length list, modelled as none, so no result at all is produced. -/
theorem C9_counterexample :
    consensus_sequence [] = none ∧ consensus_sequence [] ≠ some [] := by
  exact ⟨rfl, by decide⟩

/-- C9 amended: the consensus builder raises on an empty input collection
(the scipy mode of an empty list is undefined), and returns a consensus
sequence for every non-empty input, in line with the non-empty input
precondition of the spec. -/
theorem C9_amended_nonempty (seqs : List (List Char)) (h : seqs ≠ []) :
    (consensus_sequence seqs).isSome = true := by
  cases seqs with
  | nil => exact absurd rfl h
  | cons a t => simp [consensus_sequence, modeSmallest]

/-- Witness for C9 at a one-read collection. -/
theorem C9_witness : (consensus_sequence [strL "ACG"]).isSome = true :=
  C9_amended_nonempty [strL "ACG"] (by decide)

/-- C10: a read in which both anchors are found but whose cropped
inter-anchor region is the empty string is silently excluded from the
collected calls - and hence from the per-site histogram and the fasta
output - exactly as if the comparison had been invalid, even though a
mutation string was produced for it. -/
theorem C10_empty_crop_excluded (seq_c r lt rt : List Char) (ll rl : Int) (rcv : Bool)
    (rest : List (List Char)) (m : List Char)
    (h : _lineage_ngs_mutations seq_c r lt rt ll rl rcv = some (some m, some [])) :
    lineage_collect seq_c lt rt ll rl rcv (r :: rest) =
      lineage_collect seq_c lt rt ll rl rcv rest := by
  rw [lineage_collect, h]
  cases lineage_collect seq_c lt rt ll rl rcv rest <;> rfl

/-- Witness for C10: anchors TTTG and GGGG overlap in TTTGGGGAAA, so both are
found but the crop TTTGGGGAAA[4:4] is empty; the read produces the Intact
string mut_G_-_-_- yet is dropped from the collection. -/
theorem C10_witness :
    lineage_collect (strL "TTTGGGGAAA") (strL "TTTG") (strL "GGGG") 5 0 false
        [strL "TTTGGGGAAA"] =
      lineage_collect (strL "TTTGGGGAAA") (strL "TTTG") (strL "GGGG") 5 0 false [] :=
  C10_empty_crop_excluded (strL "TTTGGGGAAA") (strL "TTTGGGGAAA") (strL "TTTG")
    (strL "GGGG") 5 0 false [] (strL "mut_G_-_-_-") (by decide)

/-! ### Harmonizer lemmas -/

lemma present_append (l₁ l₂ : List (List Char × Int)) :
    present (l₁ ++ l₂) = present l₁ ++ present l₂ := by
  simp [present]

lemma present_mem {rows : List (List Char × Int)} {s : List Char} :
    s ∈ present rows ↔ (∃ c, (s, c) ∈ rows) ∧ s ≠ [] := by
  simp only [present, List.mem_map, List.mem_filter]
  constructor
  · rintro ⟨⟨s', c⟩, ⟨hmem, hne⟩, rfl⟩
    simp only [ne_eq, decide_eq_true_eq] at hne
    exact ⟨⟨c, hmem⟩, hne⟩
  · rintro ⟨⟨c, hmem⟩, hne⟩
    exact ⟨(s, c), ⟨hmem, by simpa⟩, rfl⟩

lemma mut_types_mem {cols : List (List (List Char × Int))} {s : List Char} :
    s ∈ mut_types cols ↔ ∃ col ∈ cols, s ∈ present col := by
  simp [mut_types, List.mem_dedup, List.mem_flatten]

lemma mut_types_ne_nil {cols : List (List (List Char × Int))} {s : List Char}
    (h : s ∈ mut_types cols) : s ≠ [] := by
  rw [mut_types_mem] at h
  obtain ⟨col, -, hs⟩ := h
  exact (present_mem.1 hs).2

lemma sumCounts_append (l₁ l₂ : List (List Char × Int)) :
    sumCounts (l₁ ++ l₂) = sumCounts l₁ + sumCounts l₂ := by
  simp [sumCounts]

lemma sumCounts_map_zero (l : List (List Char)) :
    sumCounts (l.map (fun x => (x, (0 : Int)))) = 0 := by
  induction l with
  | nil => rfl
  | cons a t ih =>
    simp only [sumCounts, List.map_cons, List.filter_cons] at ih ⊢
    split
    · simpa using ih
    · exact ih

/-- C7: per target site, re-expressing one sample's column over the union of
all samples' mutation types gives that sample exactly the union as its set of
mutation-call strings, and preserves the sample's total read count, since
only zero-count rows are added. -/
theorem C7_harmonizer_union_conservation (cols : List (List (List Char × Int)))
    (own : List (List Char × Int)) (hown : own ∈ cols) :
    (∀ s : List Char, s ∈ present (np2sum_site cols own) ↔ s ∈ mut_types cols) ∧
    sumCounts (np2sum_site cols own) = sumCounts own := by
  constructor
  · intro s
    rw [np2sum_site, present_append, List.mem_append]
    constructor
    · rintro (hs | hs)
      · rw [present_mem] at hs
        obtain ⟨⟨c, hc⟩, hne⟩ := hs
        rw [List.mem_filter] at hc
        rw [mut_types_mem]
        exact ⟨own, hown, present_mem.2 ⟨⟨c, hc.1⟩, hne⟩⟩
      · rw [present_mem] at hs
        obtain ⟨⟨c, hc⟩, hne⟩ := hs
        rw [List.mem_map] at hc
        obtain ⟨x, hx, hxe⟩ := hc
        rw [List.mem_filter] at hx
        rw [Prod.mk.injEq] at hxe
        rw [← hxe.1]
        exact hx.1
    · intro hs
      have hne := mut_types_ne_nil hs
      by_cases hmem : s ∈ own.map Prod.fst
      · left
        rw [List.mem_map] at hmem
        obtain ⟨⟨s', c⟩, hmemc, rfl⟩ := hmem
        refine present_mem.2 ⟨⟨c, ?_⟩, hne⟩
        rw [List.mem_filter]
        exact ⟨hmemc, by simpa⟩
      · right
        refine present_mem.2 ⟨⟨0, ?_⟩, hne⟩
        rw [List.mem_map]
        refine ⟨s, ?_, rfl⟩
        rw [List.mem_filter]
        exact ⟨hs, by simpa using hmem⟩
  · rw [np2sum_site, sumCounts_append, sumCounts_map_zero, add_zero]
    have hff : (own.filter (fun x => x.1 ≠ [])).filter (fun x => x.1 ≠ []) =
        own.filter (fun x => x.1 ≠ []) :=
      List.filter_eq_self.2 (fun a ha => (List.mem_filter.1 ha).2)
    rw [sumCounts, sumCounts, hff]

/-- Witness for C7 on a two-sample, one-site collection with distinct Intact
strings: the first sample keeps its total of 3 and its harmonized set
contains the second sample's string. -/
theorem C7_witness :
    sumCounts (np2sum_site cols7 own7) = sumCounts own7 ∧
    (strL "mut_T_-_-_-" ∈ present (np2sum_site cols7 own7) ↔
      strL "mut_T_-_-_-" ∈ mut_types cols7) :=
  ⟨(C7_harmonizer_union_conservation cols7 own7 (List.mem_cons_self own7 [col7b])).2,
    (C7_harmonizer_union_conservation cols7 own7 (List.mem_cons_self own7 [col7b])).1
      (strL "mut_T_-_-_-")⟩

/-! ### Deletion-branch lemmas -/

lemma scanLA_total (elen : Int) :
    ∀ (i e : List Char) (ct : Int), i.length < e.length →
      ∃ d, scanLA elen e i ct = some d ∧
        (ct ≤ d ∧ d < ct + (i.length : Int) ∨ d = elen - 1) := by
  intro i
  induction i with
  | nil =>
    intro e ct h
    refine ⟨elen - 1, ?_, Or.inr rfl⟩
    cases e <;> rfl
  | cons b i2 ih =>
    intro e ct h
    cases e with
    | nil => simp at h
    | cons a e2 =>
      rw [scanLA]
      split
      · obtain ⟨d, hd, hb⟩ := ih e2 (ct + 1) (by simp at h ⊢; omega)
        refine ⟨d, hd, ?_⟩
        rcases hb with ⟨h1, h2⟩ | h3
        · left
          refine ⟨by omega, ?_⟩
          simp only [List.length_cons]
          push_cast
          omega
        · right
          exact h3
      · refine ⟨ct, rfl, Or.inl ⟨le_refl ct, ?_⟩⟩
        simp only [List.length_cons]
        push_cast
        omega

lemma scanL_total {e i : List Char} (hlen : i.length < e.length) :
    ∃ d, scanL e i = some d ∧ 0 ≤ d ∧ d < (e.length : Int) := by
  obtain ⟨d, hd, hb⟩ := scanLA_total (e.length : Int) i e 0 hlen
  refine ⟨d, hd, ?_, ?_⟩
  · rcases hb with ⟨h1, h2⟩ | h3 <;> omega
  · rcases hb with ⟨h1, h2⟩ | h3 <;> omega

lemma scanR_bounds (e i : List Char) :
    ∀ ce ci, 0 ≤ scanR e i ce ci ∧ scanR e i ce ci < (ce : Int) ∨ scanR e i ce ci = 0 := by
  intro ce
  induction ce with
  | zero =>
    intro ci
    right
    cases ci <;> rfl
  | succ c ihc =>
    intro ci
    cases ci with
    | zero => right; rfl
    | succ d =>
      rw [scanR]
      split
      · rcases ihc d with ⟨h1, h2⟩ | h0
        · left
          exact ⟨h1, by push_cast; omega⟩
        · right
          exact h0
      · left
        constructor
        · omega
        · push_cast
          omega

lemma pySlice_length {s : List Char} {a b : Int} (h0 : 0 ≤ a) (hab : a ≤ b)
    (hb : b ≤ (s.length : Int)) : ((pySlice s a b).length : Int) = b - a := by
  rw [pySlice, pyIdx_of_nonneg_le h0 (le_trans hab hb),
    pyIdx_of_nonneg_le (le_trans h0 hab) hb, List.length_drop, List.length_take]
  omega

/-- C5 counterexample: the candidate obtained from the scenario reference by
removing two adenines between the anchors (M = 2, inside a homopolymer run)
is classified as a deletion, but the extracted deleted sequence is the
single base A - length 1, not M = 2 - annotated A*18*-17: the two boundary
scans cross on the repeated adenines and the collapse rule shrinks the
extraction to one base. -/
theorem C5_counterexample :
    refC2.length = candC5.length + 2 ∧
    _lineage_ngs_mutations refC2 candC5 ltC2 rtC2 36 20 false =
      some (some (mut_format dash dash dash
        (strL "A" ++ strL "*" ++ intStr 18 ++ strL "*" ++ intStr (-17))),
        some (strL "A" ++ gC2 ++ strL "G")) ∧
    (strL "A").length = 1 := by
  exact ⟨by decide, by decide, rfl⟩

/-- C5 amended: whenever both anchors occur in the candidate, the reference
inter-anchor span is strictly longer than the candidate span (as for a
candidate equal to the reference with M bases removed between the anchors),
and the reference crop is longer than the candidate crop, the classifier
emits a Deletion call whose extracted sequence is the slice of the reference
crop between the left-scan boundary and the right-scan boundary, the right
boundary collapsing onto the left one when the scans cross; the two
cut-site-relative distances of the annotation always sum to the length of
the extracted sequence, which is at least 1 but can be shorter than M in the
ambiguous collapsed case. -/
theorem C5_amended_deletion (seq_e seq_i lt rt : List Char) (ll rl : Int) (rcv : Bool)
    (hlt : pyFind seq_i lt ≠ -1) (hrt : pyFind seq_i rt ≠ -1)
    (hdel : pyFind seq_e rt - pyFind seq_e lt > pyFind seq_i rt - pyFind seq_i lt)
    (hcl : (cropOf seq_i lt rt).length < (cropOf seq_e lt rt).length) :
    ∃ ld rd : Int,
      scanL (cropOf seq_e lt rt) (cropOf seq_i lt rt) = some ld ∧
      rd = (if ld > scanR (cropOf seq_e lt rt) (cropOf seq_i lt rt)
              (cropOf seq_e lt rt).length (cropOf seq_i lt rt).length then ld
            else scanR (cropOf seq_e lt rt) (cropOf seq_i lt rt)
              (cropOf seq_e lt rt).length (cropOf seq_i lt rt).length) ∧
      _lineage_ngs_mutations seq_e seq_i lt rt ll rl rcv =
        some (some (mut_format dash dash dash
          ((if rcv then get_reverse_complement (pySlice (cropOf seq_e lt rt) ld (rd + 1))
            else pySlice (cropOf seq_e lt rt) ld (rd + 1)) ++
            strL "*" ++ intStr ((ll - (lt.length : Int)) - ld) ++ strL "*" ++
            intStr (rd + 1 - (ll - (lt.length : Int))))),
          some (cropOf seq_i lt rt)) ∧
      ((ll - (lt.length : Int)) - ld) + (rd + 1 - (ll - (lt.length : Int))) =
        ((pySlice (cropOf seq_e lt rt) ld (rd + 1)).length : Int) ∧
      1 ≤ (pySlice (cropOf seq_e lt rt) ld (rd + 1)).length := by
  obtain ⟨ld, hld, hld0, hldE⟩ := scanL_total hcl
  have hr0 := scanR_bounds (cropOf seq_e lt rt) (cropOf seq_i lt rt)
    (cropOf seq_e lt rt).length (cropOf seq_i lt rt).length
  set r0 := scanR (cropOf seq_e lt rt) (cropOf seq_i lt rt)
    (cropOf seq_e lt rt).length (cropOf seq_i lt rt).length with hr0def
  set rd := (if ld > r0 then ld else r0) with hrd
  have hbounds : 0 ≤ rd ∧ ld ≤ rd ∧ rd + 1 ≤ ((cropOf seq_e lt rt).length : Int) := by
    rw [hrd]
    rcases hr0 with ⟨h1, h2⟩ | h0 <;> split <;> omega
  have hslice := pySlice_length hld0 (by omega) (by omega)
    (s := cropOf seq_e lt rt) (a := ld) (b := rd + 1)
  refine ⟨ld, rd, hld, hrd, ?_, by omega, by omega⟩
  simp only [_lineage_ngs_mutations]
  rw [if_pos ⟨hlt, hrt⟩, if_neg (by omega), if_pos hdel, hld]

/-- Witness for C5 amended at the scenario deletion (reference crop three
adenines, guide, G; candidate crop one adenine, guide, G). -/
theorem C5_witness :
    ∃ ld rd : Int,
      scanL (cropOf refC2 ltC2 rtC2) (cropOf candC5 ltC2 rtC2) = some ld ∧
      rd = (if ld > scanR (cropOf refC2 ltC2 rtC2) (cropOf candC5 ltC2 rtC2)
              (cropOf refC2 ltC2 rtC2).length (cropOf candC5 ltC2 rtC2).length then ld
            else scanR (cropOf refC2 ltC2 rtC2) (cropOf candC5 ltC2 rtC2)
              (cropOf refC2 ltC2 rtC2).length (cropOf candC5 ltC2 rtC2).length) ∧
      _lineage_ngs_mutations refC2 candC5 ltC2 rtC2 36 20 false =
        some (some (mut_format dash dash dash
          ((if false then get_reverse_complement (pySlice (cropOf refC2 ltC2 rtC2) ld (rd + 1))
            else pySlice (cropOf refC2 ltC2 rtC2) ld (rd + 1)) ++
            strL "*" ++ intStr ((36 - (ltC2.length : Int)) - ld) ++ strL "*" ++
            intStr (rd + 1 - (36 - (ltC2.length : Int))))),
          some (cropOf candC5 ltC2 rtC2)) ∧
      ((36 - (ltC2.length : Int)) - ld) + (rd + 1 - (36 - (ltC2.length : Int))) =
        ((pySlice (cropOf refC2 ltC2 rtC2) ld (rd + 1)).length : Int) ∧
      1 ≤ (pySlice (cropOf refC2 ltC2 rtC2) ld (rd + 1)).length :=
  C5_amended_deletion refC2 candC5 ltC2 rtC2 36 20 false (by decide) (by decide)
    (by decide) (by decide)

end MagicSeq
